import Mathlib

/-!
Verification development for the serverless-functions platform
(`src/services/executor.ts`, `src/services/fileSystem.ts`,
`src/services/scheduler.ts`, `src/routes/functions.ts`,
`src/routes/schedules.ts`).

The TypeScript services are shallowly embedded: pure string processing is
translated function-by-function, the stateful executor and scheduler are
modelled by explicit state passing, and the asynchronous race between a
child process and the wall-clock timeout is modelled by an explicit
`ChildBehavior` record describing when (and how) the child closes.
Paths are relative to the process working directory, whose prefix
(`process.cwd()`) is dropped uniformly.
-/

namespace Serverless

/-! ## Paths (from `fileSystem.ts` lines 9-11 and the executor) -/

def FUNCTIONS_DIR : String := "functions"

def DIST_FUNCTIONS_DIR : String := "dist/functions"

/-- Path of the interpreted source `functions/<name>.js` (executor.ts line 23). -/
def jsSourcePath (functionName : String) : String :=
  FUNCTIONS_DIR ++ "/" ++ functionName ++ ".js"

/-- Path of the typed source `functions/<name>.ts` (executor.ts line 24). -/
def tsSourcePath (functionName : String) : String :=
  FUNCTIONS_DIR ++ "/" ++ functionName ++ ".ts"

/-- Compiled output path `dist/functions/<name>.js`
(fileSystem.ts `compileTypeScriptFile`, line 39, and `deleteFunction`, line 83). -/
def compiledJsPath (functionName : String) : String :=
  DIST_FUNCTIONS_DIR ++ "/" ++ functionName ++ ".js"

/-- Per-function environment file `functions/<name>.env`
(fileSystem.ts `getFunctionEnvPath`, lines 173-175). -/
def envFilePath (functionName : String) : String :=
  FUNCTIONS_DIR ++ "/" ++ functionName ++ ".env"

/-- Temporary bootstrap script `tmp/<name>_exec.mjs` (executor.ts line 40). -/
def tmpScriptPath (functionName : String) : String :=
  "tmp/" ++ functionName ++ "_exec.mjs"

/-! ## JavaScript string primitives used by the close handler

The executor's close handler slices the captured output with
`String.indexOf` / `String.substring`; we mirror those primitives on
`List Char`, with the JS `-1` sentinel kept as an `Int`. -/

/-- First index at or after `start` where `pat` occurs in `text`; `none` if absent. -/
def firstIndexFrom (pat : List Char) (text : List Char) (start : Nat) : Option Nat :=
  (List.range (text.length + 1)).find? fun i =>
    decide (start ≤ i) && decide (pat.isPrefixOf (text.drop i))

/-- JS `text.indexOf(pat, from)`: a negative `from` is clamped to 0, a miss is `-1`. -/
def jsIndexOfFrom (text pat : List Char) (start : Int) : Int :=
  match firstIndexFrom pat text start.toNat with
  | some i => (i : Int)
  | none => -1

/-- JS `text.indexOf(pat)`. -/
def jsIndexOf (text pat : List Char) : Int :=
  jsIndexOfFrom text pat 0

/-- JS `text.substring(from)` with clamping of out-of-range arguments. -/
def jsSubstringFrom (text : List Char) (start : Int) : List Char :=
  text.drop start.toNat

/-- JS `text.substring(from, to)` with clamping of out-of-range arguments. -/
def jsSubstring (text : List Char) (start stop : Int) : List Char :=
  (text.take stop.toNat).drop start.toNat

/-- JS whitespace for `trim` (the common ASCII whitespace characters). -/
def isJsWhitespace (c : Char) : Bool :=
  c = ' ' || c = '\t' || c = '\n' || c = '\r' || c = '\x0b' || c = '\x0c'

/-- JS `text.trim()` on a character list. -/
def trimChars (text : List Char) : List Char :=
  ((text.dropWhile isJsWhitespace).reverse.dropWhile isJsWhitespace).reverse

/-- JS `text.trim()` on strings, via the character-list model. -/
def jsTrim (text : String) : String :=
  String.mk (trimChars text.data)

/-! ## Execution results (executor.ts) -/

/-- The structured value `executeFunction` resolves with
(executor.ts lines 236-241, 248-253 and 256-263). -/
structure ExecResult where
  output : String
  error : String
  exitCode : Nat
  result : Option String
deriving Repr, DecidableEq

/-- The `extractBetweenMarkers` helper defined inside the close handler
(executor.ts lines 199-207), with `endMarker` always supplied. -/
def extractBetweenMarkers (text startMarker endMarker : List Char) : List Char :=
  let startIndex := jsIndexOf text startMarker
  if startIndex = -1 then []
  else
    let contentStart := startIndex + startMarker.length
    let endIndex := jsIndexOfFrom text endMarker contentStart
    if endIndex = -1 then jsSubstringFrom text contentStart
    else jsSubstring text contentStart endIndex

/-- The marker-driven log extraction of the close handler
(executor.ts lines 209-233): recover the region between the
`FUNCTION LOGS` markers, after `__MODULE_SETUP_COMPLETE__`. -/
def extractFunctionOutput (output : List Char) : List Char :=
  let moduleSetupEnd := jsIndexOf output "__MODULE_SETUP_COMPLETE__".data
  if moduleSetupEnd ≠ -1 then
    let logsStartMarker := "FUNCTION LOGS START --------------------------".data
    let logsStart := jsIndexOfFrom output logsStartMarker moduleSetupEnd
    let logsEnd := jsIndexOfFrom output "-------------------------- FUNCTION LOGS END".data logsStart
    if logsStart ≠ -1 ∧ logsEnd ≠ -1 then
      trimChars (jsSubstring output (logsStart + logsStartMarker.length) logsEnd)
    else []
  else []

/-- The sentinel-delimited structured result of the close handler
(executor.ts lines 228-233). -/
def extractFunctionResult (output : List Char) : List Char :=
  trimChars (extractBetweenMarkers output
    ("__FUNCTION_RESULT_START__".data ++ ['\n'])
    "__FUNCTION_RESULT_END__".data)

/-- JS `code || 0` applied to the nullable close code (executor.ts line 239):
`null` and `0` both map to `0`. -/
def closeExitCode (code : Option Nat) : Nat :=
  match code with
  | some n => n
  | none => 0

/-- Observable behavior of one spawned child process: when its `close` event
fires relative to spawn, the (nullable) exit code it reports, the contents of
the two output accumulators at close time, and the content of the `output`
accumulator at the moment the timeout would fire. -/
structure ChildBehavior where
  exitDelay : Nat
  closeCode : Option Nat
  combinedOutput : String
  errorOutput : String
  outputAtTimeout : String
deriving Repr, DecidableEq

/-- The value resolved by the close handler (executor.ts lines 194-242). -/
def closeResult (child : ChildBehavior) : ExecResult :=
  let functionOutput := extractFunctionOutput child.combinedOutput.data
  let functionResult := extractFunctionResult child.combinedOutput.data
  { output := if functionOutput = [] then jsTrim child.combinedOutput
              else String.mk functionOutput
    error := jsTrim child.errorOutput
    exitCode := closeExitCode child.closeCode
    result := some (String.mk functionResult) }

/-- The value resolved by the timeout handler (executor.ts lines 245-254):
the child is killed, `error` is overwritten with the timeout message, and the
exit code is forced to `124`. -/
def timeoutResult (child : ChildBehavior) : ExecResult :=
  { output := child.outputAtTimeout
    error := "Function execution timed out"
    exitCode := 124
    result := none }

/-- What one call of `executeFunction` did: whether a child process was
spawned, whether the temporary bootstrap script still exists once every
pending event handler has run, and the resolved result. -/
structure InvocationTrace where
  spawned : Bool
  scriptOnDiskAfter : Bool
  result : ExecResult
deriving Repr, DecidableEq

/-- Shallow embedding of `executeFunction` (executor.ts lines 15-264).
`files` is the set of paths present on disk.  Resolution tries
`functions/<name>.js`, then `functions/<name>.ts` (compiling it), and
otherwise throws `Function <name> not found`, which the surrounding
`catch` turns into a structured exit-code-1 result with no process spawned.
When a child is spawned, the bootstrap script is written, and the `close`
event races the timeout: if `close` fires first it deletes the script and
resolves with the marker-extracted result; if the timeout fires first it
kills the child and resolves with `timeoutResult`, and the killed child's
subsequent `close` event still runs the handler that deletes the script, so
the script is gone in either case. -/
def executeFunction (files : List String) (functionName : String)
    (timeoutMs : Nat) (child : ChildBehavior) : InvocationTrace :=
  if jsSourcePath functionName ∈ files ∨ tsSourcePath functionName ∈ files then
    if child.exitDelay < timeoutMs then
      { spawned := true, scriptOnDiskAfter := false, result := closeResult child }
    else
      { spawned := true, scriptOnDiskAfter := false, result := timeoutResult child }
  else
    { spawned := false, scriptOnDiskAfter := false,
      result := { output := ""
                  error := "Function " ++ functionName ++ " not found"
                  exitCode := 1
                  result := none } }

/-- The response body of `POST /name/:functionName/execute`
(routes/functions.ts lines 157-179). -/
structure ExecuteResponse where
  success : Bool
  output : String
  error : String
  exitCode : Nat
deriving Repr, DecidableEq

/-- Shallow embedding of the execute endpoint body: `success` is
`exitCode === 0` (routes/functions.ts lines 169-174). -/
def executeEndpointResponse (r : ExecResult) : ExecuteResponse :=
  { success := r.exitCode == 0
    output := r.output
    error := r.error
    exitCode := r.exitCode }

/-- Substring containment, to state that an error message mentions a phrase. -/
def containsSub (text sub : String) : Bool :=
  decide (firstIndexFrom sub.data text.data 0 ≠ none)

/-! ## Claims C1, C3, C9 -/

/-- C1: for every function whose child process runs past the timeout, the
invocation resolves with exit code 124 and the timeout error message (which
mentions the execution timing out), and once the killed child's close event
has run, the temporary bootstrap script no longer exists. -/
theorem executeFunction_timeout (files : List String) (functionName : String)
    (timeoutMs : Nat) (child : ChildBehavior)
    (hsrc : jsSourcePath functionName ∈ files)
    (hlate : timeoutMs ≤ child.exitDelay) :
    (executeFunction files functionName timeoutMs child).result.exitCode = 124 ∧
    (executeFunction files functionName timeoutMs child).result.error =
      "Function execution timed out" ∧
    containsSub (executeFunction files functionName timeoutMs child).result.error
      "timed out" = true ∧
    (executeFunction files functionName timeoutMs child).scriptOnDiskAfter = false := by
  have hmem : jsSourcePath functionName ∈ files ∨ tsSourcePath functionName ∈ files :=
    Or.inl hsrc
  have hnot : ¬ child.exitDelay < timeoutMs := not_lt.mpr hlate
  unfold executeFunction
  rw [if_pos hmem, if_neg hnot]
  exact ⟨rfl, rfl,
    show containsSub "Function execution timed out" "timed out" = true by decide, rfl⟩

/-- Witness for C1: a concrete invocation that sleeps past a 100 ms timeout. -/
theorem executeFunction_timeout_witness :
    (executeFunction [jsSourcePath "sleepy"] "sleepy" 100
        { exitDelay := 5000, closeCode := none, combinedOutput := ""
          errorOutput := "", outputAtTimeout := "" }).result.exitCode = 124 ∧
    (executeFunction [jsSourcePath "sleepy"] "sleepy" 100
        { exitDelay := 5000, closeCode := none, combinedOutput := ""
          errorOutput := "", outputAtTimeout := "" }).result.error =
      "Function execution timed out" ∧
    containsSub (executeFunction [jsSourcePath "sleepy"] "sleepy" 100
        { exitDelay := 5000, closeCode := none, combinedOutput := ""
          errorOutput := "", outputAtTimeout := "" }).result.error "timed out" = true ∧
    (executeFunction [jsSourcePath "sleepy"] "sleepy" 100
        { exitDelay := 5000, closeCode := none, combinedOutput := ""
          errorOutput := "", outputAtTimeout := "" }).scriptOnDiskAfter = false :=
  executeFunction_timeout [jsSourcePath "sleepy"] "sleepy" 100
    { exitDelay := 5000, closeCode := none, combinedOutput := ""
      errorOutput := "", outputAtTimeout := "" }
    (by decide) (by decide)

/-- C3: when neither `functions/<name>.js` nor `functions/<name>.ts` exists,
`executeFunction` spawns no child process and resolves (rather than
throwing) with exit code 1, empty output, and an error naming the missing
function. -/
theorem executeFunction_missing (files : List String) (functionName : String)
    (timeoutMs : Nat) (child : ChildBehavior)
    (hjs : jsSourcePath functionName ∉ files)
    (hts : tsSourcePath functionName ∉ files) :
    (executeFunction files functionName timeoutMs child).spawned = false ∧
    (executeFunction files functionName timeoutMs child).result =
      { output := "", error := "Function " ++ functionName ++ " not found"
        exitCode := 1, result := none } := by
  have hmem : ¬ (jsSourcePath functionName ∈ files ∨ tsSourcePath functionName ∈ files) := by
    intro h
    rcases h with h | h
    · exact hjs h
    · exact hts h
  unfold executeFunction
  rw [if_neg hmem]
  exact ⟨rfl, rfl⟩

/-- Witness for C3: executing a function with no source file on an empty disk. -/
theorem executeFunction_missing_witness :
    (executeFunction [] "ghost" 30000
        { exitDelay := 0, closeCode := none, combinedOutput := ""
          errorOutput := "", outputAtTimeout := "" }).spawned = false ∧
    (executeFunction [] "ghost" 30000
        { exitDelay := 0, closeCode := none, combinedOutput := ""
          errorOutput := "", outputAtTimeout := "" }).result =
      { output := "", error := "Function " ++ "ghost" ++ " not found"
        exitCode := 1, result := none } :=
  executeFunction_missing [] "ghost" 30000
    { exitDelay := 0, closeCode := none, combinedOutput := ""
      errorOutput := "", outputAtTimeout := "" }
    (by decide) (by decide)

/-- C9: when the close event reports a `null` exit code (child terminated
without a normal exit and no timeout fired), the executor maps it to exit
code 0 via `code || 0`, and the execute endpoint consequently reports
`success: true`. -/
theorem executeFunction_nullCode_success (files : List String)
    (functionName : String) (timeoutMs : Nat) (child : ChildBehavior)
    (hsrc : jsSourcePath functionName ∈ files)
    (hearly : child.exitDelay < timeoutMs)
    (hnull : child.closeCode = none) :
    (executeFunction files functionName timeoutMs child).result.exitCode = 0 ∧
    (executeEndpointResponse
      (executeFunction files functionName timeoutMs child).result).success = true := by
  have hmem : jsSourcePath functionName ∈ files ∨ tsSourcePath functionName ∈ files :=
    Or.inl hsrc
  simp only [executeFunction, if_pos hmem, if_pos hearly]
  constructor
  · simp [closeResult, closeExitCode, hnull]
  · simp [executeEndpointResponse, closeResult, closeExitCode, hnull]

/-- Witness for C9: a concrete child killed by a signal (null close code)
before the timeout, reported as exit code 0 and `success: true`. -/
theorem executeFunction_nullCode_success_witness :
    (executeFunction [jsSourcePath "killed"] "killed" 30000
        { exitDelay := 10, closeCode := none, combinedOutput := "hi"
          errorOutput := "", outputAtTimeout := "" }).result.exitCode = 0 ∧
    (executeEndpointResponse
      (executeFunction [jsSourcePath "killed"] "killed" 30000
        { exitDelay := 10, closeCode := none, combinedOutput := "hi"
          errorOutput := "", outputAtTimeout := "" }).result).success = true :=
  executeFunction_nullCode_success [jsSourcePath "killed"] "killed" 30000
    { exitDelay := 10, closeCode := none, combinedOutput := "hi"
      errorOutput := "", outputAtTimeout := "" }
    (by decide) (by decide) rfl

/-! ## Environment-variable persistence (fileSystem.ts lines 177-221)

`saveFunctionEnv` serialises the map as `key=value` lines;
`getFunctionEnv` splits the file on newlines, skips blank and `#` lines,
splits each line on `=`, rejoins the tail with `=` and trims key and value.
We embed the JS string primitives (`split`, `join`, `trim`) on `List Char`. -/

/-- JS `text.split(sep)` for a one-character separator. -/
def splitOnChar (sep : Char) : List Char → List (List Char)
  | [] => [[]]
  | c :: cs =>
    match splitOnChar sep cs with
    | [] => [[]]
    | h :: t => if c = sep then [] :: h :: t else (c :: h) :: t

/-- JS `parts.join(sep)` for a one-character separator. -/
def joinWithChar (sep : Char) : List (List Char) → List Char
  | [] => []
  | [l] => l
  | l :: ls => l ++ sep :: joinWithChar sep ls

/-- JS property assignment `env[key] = value` on a plain (insertion-ordered)
object, modelled on an association list: overwrite in place, else append. -/
def recordSet (env : List (List Char × List Char)) (k v : List Char) :
    List (List Char × List Char) :=
  if env.any (fun kv => kv.1 = k) then
    env.map (fun kv => if kv.1 = k then (k, v) else kv)
  else env ++ [(k, v)]

/-- The file content built by `saveFunctionEnv` (fileSystem.ts lines 180-185):
one `key=value` line per entry, each terminated by a newline. -/
def saveFunctionEnvContent (envVars : List (List Char × List Char)) : List Char :=
  envVars.foldl (fun content kv => content ++ kv.1 ++ '=' :: kv.2 ++ ['\n']) []

/-- Processing of one line by `getFunctionEnv` (fileSystem.ts lines 205-214):
skip blank lines and lines starting with `#`; split on `=`; the value is the
tail rejoined with `=`; store `key.trim() → value.trim()` when the key is a
nonempty string (JS truthiness; `value` is never `undefined`). -/
def parseEnvLine (env : List (List Char × List Char)) (line : List Char) :
    List (List Char × List Char) :=
  if trimChars line = [] ∨ line.headD ' ' = '#' then env
  else
    let parts := splitOnChar '=' line
    let key := parts.headD []
    let value := joinWithChar '=' parts.tail
    if key ≠ [] then recordSet env (trimChars key) (trimChars value) else env

/-- The map read back by `getFunctionEnv` from a file content
(fileSystem.ts lines 202-216). -/
def getFunctionEnvParse (content : List Char) : List (List Char × List Char) :=
  (splitOnChar '\n' content).foldl parseEnvLine []

/-- Composition of `saveFunctionEnv(name, M)` followed by `getFunctionEnv(name)`:
the file written by the save is exactly what the get reads back. -/
def envRoundTrip (envVars : List (List Char × List Char)) :
    List (List Char × List Char) :=
  getFunctionEnvParse (saveFunctionEnvContent envVars)

/-! ### Round-trip lemmas -/

theorem saveFoldl_eq (l : List (List Char × List Char)) (acc : List Char) :
    l.foldl (fun content kv => content ++ kv.1 ++ '=' :: kv.2 ++ ['\n']) acc =
      acc ++ (l.map (fun kv => kv.1 ++ '=' :: kv.2 ++ ['\n'])).flatten := by
  induction l generalizing acc with
  | nil => simp
  | cons kv rest ih =>
    rw [List.foldl_cons, ih]
    simp [List.append_assoc]

theorem saveFunctionEnvContent_eq (envVars : List (List Char × List Char)) :
    saveFunctionEnvContent envVars =
      (envVars.map (fun kv => kv.1 ++ '=' :: kv.2 ++ ['\n'])).flatten := by
  have h := saveFoldl_eq envVars []
  simpa [saveFunctionEnvContent] using h

theorem splitOnChar_ne_nil (sep : Char) (l : List Char) : splitOnChar sep l ≠ [] := by
  cases l with
  | nil => simp [splitOnChar]
  | cons c cs =>
    simp only [splitOnChar]
    rcases h : splitOnChar sep cs with _ | ⟨head, tail⟩
    · simp
    · by_cases hc : c = sep <;> simp [hc]

theorem splitOnChar_sep_cons (sep : Char) (l rest : List Char) (hl : sep ∉ l) :
    splitOnChar sep (l ++ sep :: rest) = l :: splitOnChar sep rest := by
  induction l with
  | nil =>
    simp only [List.nil_append, splitOnChar]
    rcases h : splitOnChar sep rest with _ | ⟨head, tail⟩
    · exact absurd h (splitOnChar_ne_nil sep rest)
    · simp
  | cons c cs ih =>
    have hc : c ≠ sep := fun hc => hl (by simp [hc])
    have hcs : sep ∉ cs := fun hmem => hl (List.mem_cons_of_mem c hmem)
    show splitOnChar sep (c :: (cs ++ sep :: rest)) = (c :: cs) :: splitOnChar sep rest
    simp only [splitOnChar]
    rw [ih hcs]
    simp [hc]

theorem splitOnChar_no_sep (sep : Char) (l : List Char) (hl : sep ∉ l) :
    splitOnChar sep l = [l] := by
  induction l with
  | nil => simp [splitOnChar]
  | cons c cs ih =>
    have hc : c ≠ sep := fun hc => hl (by simp [hc])
    have hcs : sep ∉ cs := fun hmem => hl (List.mem_cons_of_mem c hmem)
    simp [splitOnChar, ih hcs, hc]

theorem joinWithChar_splitOnChar (sep : Char) (l : List Char) :
    joinWithChar sep (splitOnChar sep l) = l := by
  induction l with
  | nil => rfl
  | cons c cs ih =>
    rcases h : splitOnChar sep cs with _ | ⟨head, tail⟩
    · exact absurd h (splitOnChar_ne_nil sep cs)
    · rw [h] at ih
      show joinWithChar sep (splitOnChar sep (c :: cs)) = c :: cs
      simp only [splitOnChar, h]
      by_cases hc : c = sep
      · rw [if_pos hc, hc]
        have hstep : joinWithChar sep ([] :: head :: tail) =
            [] ++ sep :: joinWithChar sep (head :: tail) := rfl
        rw [hstep, ih]
        simp
      · rw [if_neg hc]
        cases tail with
        | nil =>
          have hhead : head = cs := ih
          have hstep : joinWithChar sep [c :: head] = c :: head := rfl
          rw [hstep, hhead]
        | cons t ts =>
          have hstep : joinWithChar sep ((c :: head) :: t :: ts) =
              (c :: head) ++ sep :: joinWithChar sep (t :: ts) := rfl
          have hrest : head ++ sep :: joinWithChar sep (t :: ts) = cs := ih
          rw [hstep, List.cons_append, hrest]

theorem dropWhile_ne_nil_of_exists (p : Char → Bool) (l : List Char)
    (h : ∃ x ∈ l, ¬ p x) : l.dropWhile p ≠ [] := by
  induction l with
  | nil => simp at h
  | cons c cs ih =>
    by_cases hc : p c
    · rw [List.dropWhile_cons_of_pos hc]
      rcases h with ⟨x, hx, hpx⟩
      rcases List.mem_cons.mp hx with rfl | hx
      · exact absurd hc hpx
      · exact ih ⟨x, hx, hpx⟩
    · rw [List.dropWhile_cons_of_neg hc]
      simp

theorem trimChars_ne_nil (c : Char) (cs : List Char) (hc : ¬ isJsWhitespace c) :
    trimChars (c :: cs) ≠ [] := by
  unfold trimChars
  rw [List.dropWhile_cons_of_neg hc]
  intro hnil
  have h : (c :: cs).reverse.dropWhile isJsWhitespace = [] := by
    have := congrArg List.reverse hnil
    simpa using this
  exact dropWhile_ne_nil_of_exists isJsWhitespace (c :: cs).reverse
    ⟨c, by simp, hc⟩ h

theorem dropWhile_length_le (p : Char → Bool) (l : List Char) :
    (l.dropWhile p).length ≤ l.length := by
  induction l with
  | nil => simp
  | cons c cs ih =>
    by_cases hc : p c
    · rw [List.dropWhile_cons_of_pos hc]
      exact Nat.le_succ_of_le ih
    · rw [List.dropWhile_cons_of_neg hc]

theorem head_not_ws_of_trim_fixed (c : Char) (cs : List Char)
    (h : trimChars (c :: cs) = c :: cs) : ¬ isJsWhitespace c := by
  intro hc
  have hlen : (trimChars (c :: cs)).length ≤ cs.length := by
    unfold trimChars
    rw [List.dropWhile_cons_of_pos hc]
    calc ((cs.dropWhile isJsWhitespace).reverse.dropWhile isJsWhitespace).reverse.length
        = ((cs.dropWhile isJsWhitespace).reverse.dropWhile isJsWhitespace).length := by
          simp
      _ ≤ (cs.dropWhile isJsWhitespace).reverse.length :=
          dropWhile_length_le _ _
      _ = (cs.dropWhile isJsWhitespace).length := by simp
      _ ≤ cs.length := dropWhile_length_le _ _
  rw [h] at hlen
  simp at hlen

/-- Conditions on one entry under which its line survives the parse intact:
nonempty trimmed key that does not start with `#` and contains neither `=`
nor a newline; trimmed value without a newline. -/
def EnvEntryOk (kv : List Char × List Char) : Prop :=
  kv.1 ≠ [] ∧ trimChars kv.1 = kv.1 ∧ '=' ∉ kv.1 ∧ '\n' ∉ kv.1 ∧
    kv.1.headD ' ' ≠ '#' ∧ trimChars kv.2 = kv.2 ∧ '\n' ∉ kv.2

instance (kv : List Char × List Char) : Decidable (EnvEntryOk kv) := by
  unfold EnvEntryOk; infer_instance

theorem recordSet_fresh (env : List (List Char × List Char)) (k v : List Char)
    (hfresh : ∀ kv ∈ env, kv.1 ≠ k) :
    recordSet env k v = env ++ [(k, v)] := by
  unfold recordSet
  rw [if_neg]
  simp only [List.any_eq_true, decide_eq_true_eq, not_exists]
  intro kv
  rw [not_and]
  exact hfresh kv

theorem parseEnvLine_entry (env : List (List Char × List Char))
    (k v : List Char) (hok : EnvEntryOk (k, v))
    (hfresh : ∀ kv ∈ env, kv.1 ≠ k) :
    parseEnvLine env (k ++ '=' :: v) = env ++ [(k, v)] := by
  obtain ⟨hne, htrimk0, hkeq0, -, hhash0, htrimv0, -⟩ := hok
  rcases k with _ | ⟨c, cs⟩
  · exact absurd rfl hne
  have htrimk : trimChars (c :: cs) = c :: cs := htrimk0
  have hkeq : '=' ∉ c :: cs := hkeq0
  have htrimv : trimChars v = v := htrimv0
  have hcws : ¬ isJsWhitespace c := head_not_ws_of_trim_fixed c cs htrimk
  have htrimline : trimChars ((c :: cs) ++ '=' :: v) ≠ [] := by
    simpa using trimChars_ne_nil c (cs ++ '=' :: v) hcws
  have hhead : ((c :: cs) ++ '=' :: v).headD ' ' ≠ '#' := by
    simpa using hhash0
  unfold parseEnvLine
  rw [if_neg (by push_neg; exact ⟨htrimline, hhead⟩)]
  simp only [splitOnChar_sep_cons '=' (c :: cs) v hkeq, List.headD_cons,
    List.tail_cons, joinWithChar_splitOnChar]
  rw [if_pos (by simp)]
  rw [htrimk, htrimv]
  exact recordSet_fresh env (c :: cs) v hfresh

theorem parseEnvLine_blank (env : List (List Char × List Char)) :
    parseEnvLine env [] = env := by
  unfold parseEnvLine
  rw [if_pos (Or.inl (by decide))]

theorem env_parse_lines (envVars : List (List Char × List Char))
    (hok : ∀ kv ∈ envVars, EnvEntryOk kv)
    (hnodup : (envVars.map Prod.fst).Nodup) :
    ∀ env, (∀ kv ∈ env, ∀ kw ∈ envVars, kv.1 ≠ kw.1) →
      List.foldl parseEnvLine env
        ((envVars.map (fun kv : List Char × List Char => kv.1 ++ '=' :: kv.2)) ++ [[]]) =
        env ++ envVars := by
  induction envVars with
  | nil => intro env _; simp [parseEnvLine_blank]
  | cons kv rest ih =>
    intro env hdisj
    have hkv : EnvEntryOk kv := hok kv (List.mem_cons_self kv rest)
    have hfresh : ∀ p ∈ env, p.1 ≠ kv.1 := fun p hp =>
      hdisj p hp kv (List.mem_cons_self kv rest)
    simp only [List.map_cons, List.cons_append, List.foldl_cons]
    rw [show parseEnvLine env (kv.1 ++ '=' :: kv.2) = env ++ [kv] from by
      have := parseEnvLine_entry env kv.1 kv.2 (by simpa using hkv) hfresh
      simpa using this]
    rw [ih (fun p hp => hok p (List.mem_cons_of_mem kv hp))
      (by simpa using hnodup.of_cons)
      (env ++ [kv]) ?_]
    · simp
    · intro p hp kw hkw
      rcases List.mem_append.mp hp with hp | hp
      · exact hdisj p hp kw (List.mem_cons_of_mem kv hkw)
      · have hpkv : p = kv := by simpa using hp
        subst hpkv
        simp only [List.map_cons, List.nodup_cons] at hnodup
        intro hEq
        exact hnodup.1 (hEq ▸ List.mem_map_of_mem Prod.fst hkw)

theorem split_saveContent (envVars : List (List Char × List Char))
    (hok : ∀ kv ∈ envVars, EnvEntryOk kv) :
    splitOnChar '\n' (saveFunctionEnvContent envVars) =
      (envVars.map (fun kv => kv.1 ++ '=' :: kv.2)) ++ [[]] := by
  rw [saveFunctionEnvContent_eq]
  induction envVars with
  | nil => simp [splitOnChar]
  | cons kv rest ih =>
    simp only [List.map_cons, List.flatten_cons]
    have hkv := hok kv (List.mem_cons_self kv rest)
    obtain ⟨-, -, -, hkn, -, -, hvn⟩ := hkv
    have hline : '\n' ∉ kv.1 ++ '=' :: kv.2 := by
      simp only [List.mem_append, List.mem_cons]
      rintro (h | h | h)
      · exact hkn h
      · exact absurd h.symm (by decide)
      · exact hvn h
    have : kv.1 ++ '=' :: kv.2 ++ ['\n'] ++
        (rest.map (fun kv => kv.1 ++ '=' :: kv.2 ++ ['\n'])).flatten =
        (kv.1 ++ '=' :: kv.2) ++ '\n' ::
          (rest.map (fun kv => kv.1 ++ '=' :: kv.2 ++ ['\n'])).flatten := by
      simp [List.append_assoc]
    rw [this, splitOnChar_sep_cons '\n' _ _ hline,
      ih (fun p hp => hok p (List.mem_cons_of_mem kv hp))]
    simp

/-- C4 (amended): the save/get round trip is the identity on maps whose keys
are nonempty, trimmed, `#`-free at the front and contain neither `=` nor a
newline, and whose values are trimmed and newline-free. -/
theorem envRoundTrip_id (envVars : List (List Char × List Char))
    (hok : ∀ kv ∈ envVars, EnvEntryOk kv)
    (hnodup : (envVars.map Prod.fst).Nodup) :
    envRoundTrip envVars = envVars := by
  unfold envRoundTrip getFunctionEnvParse
  rw [split_saveContent envVars hok]
  have := env_parse_lines envVars hok hnodup [] (by simp)
  simpa using this

/-- Witness for the amended C4: a concrete two-entry map with an embedded `=`
in a value survives the round trip. -/
theorem envRoundTrip_id_witness :
    envRoundTrip [("API".data, "x=1".data), ("B2".data, "y".data)] =
      [("API".data, "x=1".data), ("B2".data, "y".data)] :=
  envRoundTrip_id [("API".data, "x=1".data), ("B2".data, "y".data)]
    (by decide) (by decide)

/-- C4 counterexample: the key `#a` contains no `=` and the value no newline,
yet the round trip loses the entry, because `getFunctionEnv` treats the line
`#a=b` as a comment. -/
theorem envRoundTrip_hash_key :
    envRoundTrip [("#a".data, "b".data)] = [] ∧
      envRoundTrip [("#a".data, "b".data)] ≠ [("#a".data, "b".data)] := by
  constructor
  · decide
  · decide

/-! ## deleteFunction (fileSystem.ts lines 79-95)

`deleteFunction` unlinks `functions/<name>.js`, `functions/<name>.ts` and
`dist/functions/<name>.js` when present and returns `true`; it never touches
`functions/<name>.env`. -/

/-- Shallow embedding of `deleteFunction`: the resulting set of files and the
returned boolean (always `true` on the fault-free path). -/
def deleteFunction (files : List String) (functionName : String) :
    List String × Bool :=
  (files.filter (fun p =>
      !(p == jsSourcePath functionName || p == tsSourcePath functionName ||
        p == compiledJsPath functionName)), true)

/-- C5 counterexample: on a disk holding only `functions/f.env`,
`deleteFunction "f"` reports success but leaves the environment file in
place, contradicting the claim that it removes the env file. -/
theorem deleteFunction_keeps_env :
    (deleteFunction [envFilePath "f"] "f").1 = [envFilePath "f"] ∧
      (deleteFunction [envFilePath "f"] "f").2 = true := by
  constructor
  · decide
  · decide

/-- C5 (amended): `deleteFunction` removes the `.js` and `.ts` sources and
the compiled output, leaves every other path (including the per-function
environment file) untouched, reports success, and is an idempotent no-op
when none of the three files exists. -/
theorem deleteFunction_amended (files : List String) (functionName : String) :
    (deleteFunction files functionName).2 = true ∧
    jsSourcePath functionName ∉ (deleteFunction files functionName).1 ∧
    tsSourcePath functionName ∉ (deleteFunction files functionName).1 ∧
    compiledJsPath functionName ∉ (deleteFunction files functionName).1 ∧
    (∀ p ∈ files, p ≠ jsSourcePath functionName → p ≠ tsSourcePath functionName →
      p ≠ compiledJsPath functionName → p ∈ (deleteFunction files functionName).1) ∧
    (jsSourcePath functionName ∉ files → tsSourcePath functionName ∉ files →
      compiledJsPath functionName ∉ files →
      (deleteFunction files functionName).1 = files) := by
  refine ⟨rfl, ?_, ?_, ?_, ?_, ?_⟩
  · simp [deleteFunction, List.mem_filter]
  · simp [deleteFunction, List.mem_filter]
  · simp [deleteFunction, List.mem_filter]
  · intro p hp h1 h2 h3
    simp [deleteFunction, List.mem_filter, hp, h1, h2, h3]
  · intro h1 h2 h3
    simp only [deleteFunction]
    rw [List.filter_eq_self]
    intro p hp
    simp only [Bool.not_eq_true', Bool.or_eq_false_iff, beq_eq_false_iff_ne, ne_eq]
    exact ⟨⟨fun hEq => h1 (hEq ▸ hp), fun hEq => h2 (hEq ▸ hp)⟩,
      fun hEq => h3 (hEq ▸ hp)⟩

/-- Witness for the amended C5: deleting function `g` on a disk holding its
source, compiled output, env file and an unrelated file. -/
theorem deleteFunction_amended_witness :
    (deleteFunction [jsSourcePath "g", compiledJsPath "g", envFilePath "g",
        jsSourcePath "other"] "g").1 = [envFilePath "g", jsSourcePath "other"] ∧
    (deleteFunction [jsSourcePath "g", compiledJsPath "g", envFilePath "g",
        jsSourcePath "other"] "g").2 = true ∧
    jsSourcePath "g" ∉ (deleteFunction [jsSourcePath "g", compiledJsPath "g",
        envFilePath "g", jsSourcePath "other"] "g").1 := by
  refine ⟨by decide, (deleteFunction_amended [jsSourcePath "g", compiledJsPath "g",
    envFilePath "g", jsSourcePath "other"] "g").1, ?_⟩
  exact (deleteFunction_amended [jsSourcePath "g", compiledJsPath "g",
    envFilePath "g", jsSourcePath "other"] "g").2.1

/-! ## Scheduler (scheduler.ts)

State: the persisted `schedules.json` file (`disk`, `none` when the file is
missing or unparseable) and the in-memory `activeSchedules` registry of armed
timer ids.  Each operation also emits the ordered list of its externally
visible events (disk writes, timer arms/disarms), so that the
disk-before-registry invariant can be stated about intermediate points.
`node-cron` is an external library; its `validate` is a parameter. -/

/-- A persisted schedule record (scheduler.ts `Schedule`, lines 10-17). -/
structure Schedule where
  id : String
  functionName : String
  cronExpression : String
  input : Option String
  active : Bool
  description : Option String
deriving Repr, DecidableEq

instance : Inhabited Schedule :=
  ⟨{ id := "", functionName := "", cronExpression := "", input := none,
     active := false, description := none }⟩

/-- A `Partial<Schedule>` as accepted by `updateSchedule`. -/
structure ScheduleUpdate where
  id : Option String := none
  functionName : Option String := none
  cronExpression : Option String := none
  input : Option (Option String) := none
  active : Option Bool := none
  description : Option (Option String) := none
deriving Repr, DecidableEq

/-- The JS spread `{ ...schedules[index], ...updates }`. -/
def applyUpdate (s : Schedule) (u : ScheduleUpdate) : Schedule :=
  { id := u.id.getD s.id
    functionName := u.functionName.getD s.functionName
    cronExpression := u.cronExpression.getD s.cronExpression
    input := u.input.getD s.input
    active := u.active.getD s.active
    description := u.description.getD s.description }

/-- The request body of `POST /api/schedules` (an id-less schedule). -/
structure ScheduleRequest where
  functionName : String
  cronExpression : String
  input : Option String
  active : Bool
  description : Option String
deriving Repr, DecidableEq

/-- Scheduler state: persisted file content and armed-timer registry. -/
structure SchedState where
  disk : Option (List Schedule)
  registry : List String
deriving Repr, DecidableEq

/-- Externally visible events of one scheduler operation, in order. -/
inductive SchedEvent where
  | diskWrite (schedules : List Schedule)
  | arm (id : String)
  | disarm (id : String)
deriving Repr, DecidableEq

def SchedEvent.isDiskWrite : SchedEvent → Bool
  | .diskWrite _ => true
  | _ => false

def SchedEvent.isArm : SchedEvent → Bool
  | .arm _ => true
  | _ => false

def SchedEvent.isRegistryChange : SchedEvent → Bool
  | .arm _ => true
  | .disarm _ => true
  | _ => false

/-- A trace whose registry changes all happen after the persisted file was
written: nothing before the first disk write arms or disarms a timer.  This
is the formal reading of "every mutation must update disk before changing
the in-memory registry's effect". -/
def writesDiskFirst (trace : List SchedEvent) : Bool :=
  (trace.takeWhile (fun e => !e.isDiskWrite)).all (fun e => !e.isRegistryChange)

/-- The weaker trace property the code does satisfy: no timer is ever
*armed* before the first disk write (disarms may precede it). -/
def armsAfterDiskWrite (trace : List SchedEvent) : Bool :=
  (trace.takeWhile (fun e => !e.isDiskWrite)).all (fun e => !e.isArm)

/-- `loadSchedules` (scheduler.ts lines 47-55): parse the file, returning
`[]` when it is missing or unparseable. -/
def loadSchedules (st : SchedState) : List Schedule :=
  st.disk.getD []

/-- `saveSchedules` (scheduler.ts lines 60-68): rewrite the whole file. -/
def saveSchedules (st : SchedState) (schedules : List Schedule) :
    SchedState × List SchedEvent × Bool :=
  ({ st with disk := some schedules }, [.diskWrite schedules], true)

/-- `activateSchedule` (scheduler.ts lines 73-113): no-op when the id is
already armed; reject an invalid cron expression; otherwise arm a timer and
record it in the registry.  The persisted file is never touched. -/
def activateSchedule (validate : String → Bool) (st : SchedState)
    (s : Schedule) : SchedState × List SchedEvent × Bool :=
  if s.id ∈ st.registry then (st, [], true)
  else if ¬ validate s.cronExpression then (st, [], false)
  else ({ st with registry := st.registry ++ [s.id] }, [.arm s.id], true)

/-- `deactivateSchedule` (scheduler.ts lines 118-132): stop and remove the
timer when present, otherwise return `false` without changes.  The
persisted file is never touched. -/
def deactivateSchedule (st : SchedState) (scheduleId : String) :
    SchedState × List SchedEvent × Bool :=
  if scheduleId ∈ st.registry then
    ({ st with registry := st.registry.erase scheduleId }, [.disarm scheduleId], true)
  else (st, [], false)

/-- The schedule record `addSchedule` builds from the request and the
generation-time id `Date.now().toString()`. -/
def newScheduleOf (request : ScheduleRequest) (newId : String) : Schedule :=
  { id := newId, functionName := request.functionName
    cronExpression := request.cronExpression, input := request.input
    active := request.active, description := request.description }

/-- `addSchedule` (scheduler.ts lines 137-157): load, append, save, then
activate when the new record is active. -/
def addSchedule (validate : String → Bool) (st : SchedState)
    (request : ScheduleRequest) (newId : String) :
    SchedState × List SchedEvent × Option Schedule :=
  let schedules := loadSchedules st
  let newSchedule := newScheduleOf request newId
  let saved := saveSchedules st (schedules ++ [newSchedule])
  if newSchedule.active then
    let activated := activateSchedule validate saved.1 newSchedule
    (activated.1, saved.2.1 ++ activated.2.1, some newSchedule)
  else (saved.1, saved.2.1, some newSchedule)

/-- `updateSchedule` (scheduler.ts lines 162-195): find the record, disarm
its live timer when present, apply the partial update, save the whole list,
then re-activate when the updated record is still active. -/
def updateSchedule (validate : String → Bool) (st : SchedState)
    (scheduleId : String) (updates : ScheduleUpdate) :
    SchedState × List SchedEvent × Option Schedule :=
  let schedules := loadSchedules st
  match schedules.findIdx? (fun s => s.id == scheduleId) with
  | none => (st, [], none)
  | some index =>
    let deactivated :=
      if scheduleId ∈ st.registry then deactivateSchedule st scheduleId
      else (st, [], false)
    let updatedSchedule := applyUpdate (schedules.getD index default) updates
    let saved := saveSchedules deactivated.1 (schedules.set index updatedSchedule)
    if updatedSchedule.active then
      let activated := activateSchedule validate saved.1 updatedSchedule
      (activated.1, deactivated.2.1 ++ saved.2.1 ++ activated.2.1,
        some updatedSchedule)
    else (saved.1, deactivated.2.1 ++ saved.2.1, some updatedSchedule)

/-- `deleteSchedule` (scheduler.ts lines 200-220): disarm a live timer
first, then filter the record out of the persisted list; report `false`
(without saving) when no record carried the id. -/
def deleteSchedule (st : SchedState) (scheduleId : String) :
    SchedState × List SchedEvent × Bool :=
  let deactivated :=
    if scheduleId ∈ st.registry then deactivateSchedule st scheduleId
    else (st, [], false)
  let schedules := loadSchedules deactivated.1
  let filteredSchedules := schedules.filter (fun s => s.id ≠ scheduleId)
  if filteredSchedules.length = schedules.length then
    (deactivated.1, deactivated.2.1, false)
  else
    let saved := saveSchedules deactivated.1 filteredSchedules
    (saved.1, deactivated.2.1 ++ saved.2.1, saved.2.2)

/-! ### Trace-shape lemmas -/

theorem armsAfter_nil : armsAfterDiskWrite [] = true := rfl

theorem armsAfter_diskWrite_cons (l : List Schedule) (rest : List SchedEvent) :
    armsAfterDiskWrite (.diskWrite l :: rest) = true := by
  simp [armsAfterDiskWrite, SchedEvent.isDiskWrite]

theorem armsAfter_disarm_diskWrite_cons (i : String) (l : List Schedule)
    (rest : List SchedEvent) :
    armsAfterDiskWrite (.disarm i :: .diskWrite l :: rest) = true := by
  simp [armsAfterDiskWrite, SchedEvent.isDiskWrite, SchedEvent.isArm]

theorem armsAfter_disarm_only (i : String) :
    armsAfterDiskWrite [.disarm i] = true := by
  simp [armsAfterDiskWrite, SchedEvent.isDiskWrite, SchedEvent.isArm]

theorem activateSchedule_disk (validate : String → Bool) (st : SchedState)
    (s : Schedule) : (activateSchedule validate st s).1.disk = st.disk := by
  unfold activateSchedule
  split
  · rfl
  · split <;> rfl

theorem deactivateSchedule_disk (st : SchedState) (scheduleId : String) :
    (deactivateSchedule st scheduleId).1.disk = st.disk := by
  unfold deactivateSchedule
  split <;> rfl

/-! ### Claim C2 -/

/-- A concrete persisted-and-armed schedule used in counterexamples. -/
def exSchedule : Schedule :=
  { id := "1", functionName := "f", cronExpression := "* * * * *"
    input := none, active := true, description := none }

/-- C2 counterexample: updating an armed schedule disarms its timer
*before* the persisted file is written — the trace of
`updateSchedule` on an armed active schedule starts with a `disarm`
that precedes the disk write, so the claimed ordering fails. -/
theorem updateSchedule_disarms_before_write :
    writesDiskFirst (updateSchedule (fun _ => true)
        { disk := some [exSchedule], registry := ["1"] } "1"
        { active := some true }).2.1 = false ∧
    (updateSchedule (fun _ => true)
        { disk := some [exSchedule], registry := ["1"] } "1"
        { active := some true }).2.1 =
      [.disarm "1", .diskWrite [exSchedule], .arm "1"] := by
  constructor
  · decide
  · decide

/-- C2 (amended): in `addSchedule`, `updateSchedule` and `deleteSchedule`
no timer is ever *armed* before the persisted file has been written, but
`updateSchedule` and `deleteSchedule` *disarm* the pre-existing timer
before writing, so only the arming half of the claimed ordering holds. -/
theorem mutations_arm_after_disk (validate : String → Bool) (st : SchedState)
    (request : ScheduleRequest) (newId scheduleId : String)
    (updates : ScheduleUpdate) :
    armsAfterDiskWrite (addSchedule validate st request newId).2.1 = true ∧
    armsAfterDiskWrite (updateSchedule validate st scheduleId updates).2.1 = true ∧
    armsAfterDiskWrite (deleteSchedule st scheduleId).2.1 = true := by
  refine ⟨?_, ?_, ?_⟩
  · unfold addSchedule saveSchedules activateSchedule
    dsimp only
    split <;> (try split) <;>
      simp [armsAfterDiskWrite, SchedEvent.isDiskWrite, SchedEvent.isArm]
  · unfold updateSchedule saveSchedules activateSchedule deactivateSchedule
    dsimp only
    split
    case h_1 => rfl
    case h_2 =>
      split <;> split <;> (try split) <;> (try split) <;>
        simp [armsAfterDiskWrite, SchedEvent.isDiskWrite, SchedEvent.isArm]
  · unfold deleteSchedule saveSchedules deactivateSchedule
    dsimp only
    split <;> (try split) <;>
      simp [armsAfterDiskWrite, SchedEvent.isDiskWrite, SchedEvent.isArm]

/-! ### Claim C8 -/

/-- C8 counterexample: `activateSchedule` then `deactivateSchedule` on a
schedule persisted with `active: true` leaves no timer, but the persisted
`active` flag is still `true` — neither function ever writes the file. -/
theorem activate_deactivate_flag_stays :
    ("1" ∉ (deactivateSchedule
        (activateSchedule (fun _ => true)
          { disk := some [exSchedule], registry := [] } exSchedule).1 "1").1.registry) ∧
    (deactivateSchedule
        (activateSchedule (fun _ => true)
          { disk := some [exSchedule], registry := [] } exSchedule).1 "1").1.disk =
      some [exSchedule] ∧
    exSchedule.active = true := by
  refine ⟨?_, ?_, ?_⟩
  · decide
  · decide
  · decide

/-- C8 (amended): for a schedule with a valid cron expression,
`activateSchedule` followed by `deactivateSchedule` leaves no live timer for
its id and leaves the persisted file — hence the persisted `active` flag —
unchanged (the flag is set to `false` only by the deactivate endpoint, which
additionally calls `updateSchedule`); and `deactivateSchedule` on an id with
no armed timer returns `false` and changes nothing. -/
theorem activate_deactivate_amended (validate : String → Bool)
    (st : SchedState) (s : Schedule) (hnodup : st.registry.Nodup)
    (hvalid : validate s.cronExpression = true) :
    (s.id ∉ (deactivateSchedule (activateSchedule validate st s).1 s.id).1.registry) ∧
    (deactivateSchedule (activateSchedule validate st s).1 s.id).1.disk = st.disk ∧
    (∀ i, i ∉ st.registry → deactivateSchedule st i = (st, [], false)) := by
  refine ⟨?_, ?_, ?_⟩
  · unfold activateSchedule
    by_cases hmem : s.id ∈ st.registry
    · rw [if_pos hmem]
      unfold deactivateSchedule
      dsimp only
      rw [if_pos hmem]
      simp [hnodup.mem_erase_iff]
    · rw [if_neg hmem, if_neg (by simp [hvalid])]
      unfold deactivateSchedule
      dsimp only
      rw [if_pos (by simp)]
      have hnodup2 : (st.registry ++ [s.id]).Nodup := by
        simp [List.nodup_append, hnodup, hmem]
      simp [hnodup2.mem_erase_iff]
  · rw [deactivateSchedule_disk, activateSchedule_disk]
  · intro i hmem
    unfold deactivateSchedule
    rw [if_neg hmem]

/-- Witness for the amended C8: a concrete activation/deactivation pair on
an initially empty registry. -/
theorem activate_deactivate_amended_witness :
    ("1" ∉ (deactivateSchedule
        (activateSchedule (fun _ => true)
          { disk := some [exSchedule], registry := [] } exSchedule).1
        exSchedule.id).1.registry) ∧
    (deactivateSchedule
        (activateSchedule (fun _ => true)
          { disk := some [exSchedule], registry := [] } exSchedule).1
        exSchedule.id).1.disk =
      ({ disk := some [exSchedule], registry := [] } : SchedState).disk ∧
    (∀ i, i ∉ ({ disk := some [exSchedule], registry := [] } : SchedState).registry →
      deactivateSchedule { disk := some [exSchedule], registry := [] } i =
        ({ disk := some [exSchedule], registry := [] }, [], false)) :=
  activate_deactivate_amended (fun _ => true)
    { disk := some [exSchedule], registry := [] } exSchedule
    (by decide) rfl

/-! ### Claim C10 -/

/-- C10: when the persisted schedules file is missing or unparseable,
`loadSchedules` returns the empty list, and a subsequent `addSchedule`
rewrites the file from that empty list: the new file holds exactly the one
new record, so every previously persisted record is dropped rather than the
mutation failing. -/
theorem corrupt_file_add_loses_all (validate : String → Bool)
    (registry : List String) (request : ScheduleRequest) (newId : String) :
    loadSchedules { disk := none, registry := registry } = [] ∧
    (addSchedule validate { disk := none, registry := registry }
        request newId).1.disk = some [newScheduleOf request newId] := by
  constructor
  · rfl
  · unfold addSchedule saveSchedules
    dsimp only
    split
    · rw [activateSchedule_disk]
      simp [loadSchedules]
    · simp [loadSchedules]

/-! ## Dependency extraction (fileSystem.ts lines 319-466)

`extractDependencies` combines a line-oriented scan for a JSDoc
`@dependencies` manifest with regex scans for `require` calls, destructuring
`require` calls and static/dynamic `import` statements.  The JS regexes are
embedded as explicit patterns over `List Char` together with a backtracking
matcher whose result list is ordered by JS preference (ordered alternation,
greedy/lazy repetition); `exec`-style scanning takes the leftmost match and,
for global regexes, continues after each match.  The matcher is fuel-bounded
(structural recursion); `matchFuel` exceeds the depth any of the patterns
below can recurse to on a given subject, and the fuel is universally
quantified in every lemma.  Note: the dependency map is an insertion-ordered
association list, as in `recordSet`. -/

def singleQuote : Char := Char.ofNat 39

inductive Pat where
  | epsPat
  | lit (cs : List Char)
  | cset (q : Char → Bool)
  | seq (a b : Pat)
  | alt (a b : Pat)
  | starG (a : Pat)
  | starL (a : Pat)
  | opt (a : Pat)
  | grp (a : Pat)

def pmatch : Nat → Pat → List Char → Nat → List (Nat × List (List Char))
  | 0, _, _, _ => []
  | fuel + 1, p, s, i =>
    match p with
    | .epsPat => [(i, [])]
    | .lit cs =>
      if cs.isPrefixOf (s.drop i) then [(i + cs.length, [])] else []
    | .cset q =>
      match (s.drop i).head? with
      | some c => if q c then [(i + 1, [])] else []
      | none => []
    | .seq a b =>
      (pmatch fuel a s i).flatMap (fun r =>
        (pmatch fuel b s r.1).map (fun r2 => (r2.1, r.2 ++ r2.2)))
    | .alt a b => pmatch fuel a s i ++ pmatch fuel b s i
    | .starG a =>
      (((pmatch fuel a s i).filter (fun r => i < r.1)).flatMap
        (fun r => (pmatch fuel (.starG a) s r.1).map
          (fun r2 => (r2.1, r.2 ++ r2.2)))) ++ [(i, [])]
    | .starL a =>
      (i, []) :: (((pmatch fuel a s i).filter (fun r => i < r.1)).flatMap
        (fun r => (pmatch fuel (.starL a) s r.1).map
          (fun r2 => (r2.1, r.2 ++ r2.2))))
    | .opt a => pmatch fuel a s i ++ [(i, [])]
    | .grp a =>
      (pmatch fuel a s i).map (fun r => (r.1, r.2 ++ [(s.drop i).take (r.1 - i)]))

def patDepth : Pat → Nat
  | .epsPat => 1
  | .lit _ => 1
  | .cset _ => 1
  | .seq a b => max (patDepth a) (patDepth b) + 1
  | .alt a b => max (patDepth a) (patDepth b) + 1
  | .starG a => patDepth a + 1
  | .starL a => patDepth a + 1
  | .opt a => patDepth a + 1
  | .grp a => patDepth a + 1

def matchFuel (p : Pat) (s : List Char) : Nat :=
  (patDepth p + 1) * (s.length + 2)

def execFromAux (p : Pat) (s : List Char) : Nat → Nat → Option (Nat × Nat × List (List Char))
  | _, 0 => none
  | i, scanFuel + 1 =>
    match pmatch (matchFuel p s) p s i with
    | [] => execFromAux p s (i + 1) scanFuel
    | r :: _ => some (i, r.1, r.2)

def execFrom (p : Pat) (s : List Char) (i : Nat) :
    Option (Nat × Nat × List (List Char)) :=
  execFromAux p s i (s.length + 1 - i)

def execAllFrom (p : Pat) (s : List Char) : Nat → Nat → List (List (List Char))
  | _, 0 => []
  | i, fuel + 1 =>
    match execFrom p s i with
    | none => []
    | some (st, en, caps) =>
      caps :: execAllFrom p s (if st < en then en else st + 1) fuel

def execAll (p : Pat) (s : List Char) : List (List (List Char)) :=
  execAllFrom p s 0 (s.length + 1)

def plusP (a : Pat) : Pat := .seq a (.starG a)

def isWordChar (c : Char) : Bool := c.isAlpha || c.isDigit || c = '_'

def dotAny (c : Char) : Bool := c ≠ '\n'

def quoteCls : Pat := .cset (fun c => c = '"' || c = singleQuote)

def wsStar : Pat := .starG (.cset isJsWhitespace)

def wsPlus : Pat := plusP (.cset isJsWhitespace)

def manifestLinePat : Pat :=
  .seq (.lit ['"'])
    (.seq (.grp (plusP (.cset (fun c => c ≠ '"'))))
      (.seq (.lit ['"'])
        (.seq wsStar
          (.seq (.lit [':'])
            (.seq wsStar
              (.seq (.lit ['"'])
                (.seq (.grp (plusP (.cset (fun c => c ≠ '"'))))
                  (.lit ['"']))))))))

def requireTail : Pat :=
  .alt (.lit [')'])
    (.seq (.opt (.seq (.lit (", \x7b".data))
        (.seq (.starG (.cset dotAny)) (.lit ['\x7d']))))
      (.lit [')']))

def requirePat : Pat :=
  .seq (.alt (.lit "const".data) (.alt (.lit "let".data) (.lit "var".data)))
    (.seq wsPlus
      (.seq (.starL (.cset dotAny))
        (.seq (.lit ['='])
          (.seq wsPlus
            (.seq (.lit "require(".data)
              (.seq quoteCls
                (.seq (.grp (.starL (.cset dotAny)))
                  (.seq quoteCls requireTail))))))))

def destructuringRequirePat : Pat :=
  .seq (.alt (.lit "const".data) (.alt (.lit "let".data) (.lit "var".data)))
    (.seq wsPlus
      (.seq (.lit ['\x7b'])
        (.seq wsStar
          (.seq (.grp (plusP (.cset (fun c => c ≠ '\x7d'))))
            (.seq wsStar
              (.seq (.lit ['\x7d'])
                (.seq wsStar
                  (.seq (.lit ['='])
                    (.seq wsStar
                      (.seq (.lit "require(".data)
                        (.seq quoteCls
                          (.seq (.grp (.starL (.cset dotAny)))
                            (.seq quoteCls requireTail)))))))))))))

def importClause : Pat :=
  .alt (.seq (.lit ['\x7b'])
      (.seq (.starG (.cset (fun c => c ≠ '\x7d'))) (.lit ['\x7d'])))
    (.alt (.seq (.lit ['*'])
        (.seq wsPlus (.seq (.lit "as".data) (.seq wsPlus (plusP (.cset isWordChar))))))
      (plusP (.cset isWordChar)))

def plainNameGrp : Pat :=
  .grp (.seq (.cset (fun c => c ≠ '@' && c ≠ '.' && c ≠ '/'))
    (.starG (.cset (fun c => c ≠ '/' && c ≠ '"'))))

def scopedNameGrp : Pat :=
  .grp (.seq (.lit ['@'])
    (.seq (plusP (.cset (fun c => c ≠ '/')))
      (.seq (.lit ['/'])
        (.starG (.cset (fun c => c ≠ '/' && c ≠ '"'))))))

def importFromPat (nameGrp : Pat) : Pat :=
  .seq (.lit "import".data)
    (.seq wsPlus
      (.seq (.opt (.seq importClause
          (.seq wsPlus (.seq (.lit "from".data) wsPlus))))
        (.seq quoteCls (.seq nameGrp quoteCls))))

def importCallPat (nameGrp : Pat) : Pat :=
  .seq (.lit "import".data)
    (.seq wsStar
      (.seq (.lit ['('])
        (.seq wsStar
          (.seq quoteCls
            (.seq nameGrp
              (.seq quoteCls (.seq wsStar (.lit [')']))))))))

def importPat1 : Pat := importFromPat plainNameGrp
def importPat2 : Pat := importCallPat plainNameGrp
def importPat3 : Pat := importFromPat scopedNameGrp
def importPat4 : Pat := importCallPat scopedNameGrp

def builtInModules : List (List Char) :=
  (["fs", "path", "http", "https", "util", "os", "crypto",
    "querystring", "url", "stream", "zlib", "events",
    "buffer", "child_process", "cluster", "dns", "net",
    "tls", "dgram", "readline", "repl", "string_decoder",
    "tty", "v8", "vm", "worker_threads", "perf_hooks"]).map String.data

def jsFalsyLookup (deps : List (List Char × List Char)) (k : List Char) : Bool :=
  match deps.find? (fun kv => kv.1 = k) with
  | some kv => kv.2 = []
  | none => true

def requirePackageName (fullName : List Char) : List Char :=
  let parts := splitOnChar '/' fullName
  let pkgName := parts.headD []
  if pkgName.headD ' ' = '@' ∧ '/' ∈ fullName then
    if 2 ≤ parts.length then parts.headD [] ++ '/' :: (parts.getD 1 []) else pkgName
  else pkgName

def addScannedRequire (deps : List (List Char × List Char)) (fullName : List Char) :
    List (List Char × List Char) :=
  if fullName = [] then deps
  else
    let pkgName := requirePackageName fullName
    if pkgName ∉ builtInModules ∧ pkgName.headD ' ' ≠ '.' ∧ pkgName.headD ' ' ≠ '/' then
      if jsFalsyLookup deps pkgName then recordSet deps pkgName "latest".data else deps
    else deps

def addScannedImport (deps : List (List Char × List Char)) (fullName : List Char) :
    List (List Char × List Char) :=
  let packageName := (splitOnChar '/' fullName).headD []
  if packageName ∈ builtInModules then deps
  else if jsFalsyLookup deps packageName then recordSet deps packageName "latest".data
  else deps

def manifestScan (deps : List (List Char × List Char)) (code : String) :
    List (List Char × List Char) :=
  (splitOnChar '
' code.data).foldl (fun deps line =>
    let trimmed := trimChars line
    if '"' ∈ trimmed ∧ ':' ∈ trimmed ∧ ¬ "//".data.isPrefixOf trimmed then
      match execFrom manifestLinePat trimmed 0 with
      | some (_, _, caps) => recordSet deps (caps.getD 0 []) (caps.getD 1 [])
      | none => deps
    else deps) deps

def extractDependencies (code : String) : List (List Char × List Char) :=
  let deps : List (List Char × List Char) := []
  let deps := if containsSub code "@dependencies" then manifestScan deps code else deps
  let deps := (execAll requirePat code.data).foldl
    (fun deps caps => addScannedRequire deps (caps.getD 0 [])) deps
  let deps := (execAll destructuringRequirePat code.data).foldl
    (fun deps caps => addScannedRequire deps (caps.getD 1 [])) deps
  [importPat1, importPat2, importPat3, importPat4].foldl
    (fun deps pat => (execAll pat code.data).foldl
      (fun deps caps => addScannedImport deps (caps.getD 0 [])) deps) deps

theorem pmatch_mono : ∀ (fuel : Nat) (p : Pat) (s : List Char) (i : Nat),
    ∀ r ∈ pmatch fuel p s i, i ≤ r.1 := by
  intro fuel
  induction fuel with
  | zero => intro p s i r hr; simp [pmatch] at hr
  | succ fuel ih =>
    intro p s i r hr
    cases p with
    | epsPat =>
      simp [pmatch] at hr
      subst hr; exact le_rfl
    | lit cs =>
      simp only [pmatch] at hr
      split at hr
      · simp at hr; subst hr; exact Nat.le_add_right i cs.length
      · simp at hr
    | cset q =>
      simp only [pmatch] at hr
      split at hr
      · split at hr
        · simp at hr; subst hr; exact Nat.le_succ i
        · simp at hr
      · simp at hr
    | seq a b =>
      simp only [pmatch, List.mem_flatMap, List.mem_map] at hr
      obtain ⟨r1, hr1, r2, hr2, hEq⟩ := hr
      have h1 := ih a s i r1 hr1
      have h2 := ih b s r1.1 r2 hr2
      calc i ≤ r1.1 := h1
        _ ≤ r2.1 := h2
        _ = r.1 := by rw [← hEq]
    | alt a b =>
      simp only [pmatch, List.mem_append] at hr
      rcases hr with hr | hr
      · exact ih a s i r hr
      · exact ih b s i r hr
    | starG a =>
      simp only [pmatch, List.mem_append, List.mem_flatMap, List.mem_map,
        List.mem_filter, List.mem_singleton] at hr
      rcases hr with ⟨r1, ⟨hr1, hlt⟩, r2, hr2, hEq⟩ | hr
      · have h2 := ih (.starG a) s r1.1 r2 hr2
        have h1 := ih a s i r1 hr1
        calc i ≤ r1.1 := h1
          _ ≤ r2.1 := h2
          _ = r.1 := by rw [← hEq]
      · subst hr; exact le_rfl
    | starL a =>
      simp only [pmatch, List.mem_cons, List.mem_flatMap, List.mem_map,
        List.mem_filter] at hr
      rcases hr with hr | ⟨r1, ⟨hr1, hlt⟩, r2, hr2, hEq⟩
      · subst hr; exact le_rfl
      · have h2 := ih (.starL a) s r1.1 r2 hr2
        have h1 := ih a s i r1 hr1
        calc i ≤ r1.1 := h1
          _ ≤ r2.1 := h2
          _ = r.1 := by rw [← hEq]
    | opt a =>
      simp only [pmatch, List.mem_append, List.mem_singleton] at hr
      rcases hr with hr | hr
      · exact ih a s i r hr
      · subst hr; exact le_rfl
    | grp a =>
      simp only [pmatch, List.mem_map] at hr
      obtain ⟨r0, hr0, hEq⟩ := hr
      have h0 := ih a s i r0 hr0
      calc i ≤ r0.1 := h0
        _ = r.1 := by rw [← hEq]

def groupFree : Pat → Bool
  | .epsPat => true
  | .lit _ => true
  | .cset _ => true
  | .seq a b => groupFree a && groupFree b
  | .alt a b => groupFree a && groupFree b
  | .starG a => groupFree a
  | .starL a => groupFree a
  | .opt a => groupFree a
  | .grp _ => false

theorem pmatch_groupFree : ∀ (fuel : Nat) (p : Pat), groupFree p = true →
    ∀ (s : List Char) (i : Nat), ∀ r ∈ pmatch fuel p s i, r.2 = [] := by
  intro fuel
  induction fuel with
  | zero => intro p _ s i r hr; simp [pmatch] at hr
  | succ fuel ih =>
    intro p hp s i r hr
    cases p with
    | epsPat => simp [pmatch] at hr; subst hr; rfl
    | lit cs =>
      simp only [pmatch] at hr
      split at hr
      · simp at hr; subst hr; rfl
      · simp at hr
    | cset q =>
      simp only [pmatch] at hr
      split at hr
      · split at hr
        · simp at hr; subst hr; rfl
        · simp at hr
      · simp at hr
    | seq a b =>
      simp only [groupFree, Bool.and_eq_true] at hp
      simp only [pmatch, List.mem_flatMap, List.mem_map] at hr
      obtain ⟨r1, hr1, r2, hr2, hEq⟩ := hr
      have h1 := ih a hp.1 s i r1 hr1
      have h2 := ih b hp.2 s r1.1 r2 hr2
      rw [← hEq]
      simp [h1, h2]
    | alt a b =>
      simp only [groupFree, Bool.and_eq_true] at hp
      simp only [pmatch, List.mem_append] at hr
      rcases hr with hr | hr
      · exact ih a hp.1 s i r hr
      · exact ih b hp.2 s i r hr
    | starG a =>
      simp only [groupFree] at hp
      simp only [pmatch, List.mem_append, List.mem_flatMap, List.mem_map,
        List.mem_filter, List.mem_singleton] at hr
      rcases hr with ⟨r1, ⟨hr1, hlt⟩, r2, hr2, hEq⟩ | hr
      · have h1 := ih a hp s i r1 hr1
        have h2 := ih (.starG a) (by simpa [groupFree] using hp) s r1.1 r2 hr2
        rw [← hEq]
        simp [h1, h2]
      · subst hr; rfl
    | starL a =>
      simp only [groupFree] at hp
      simp only [pmatch, List.mem_cons, List.mem_flatMap, List.mem_map,
        List.mem_filter] at hr
      rcases hr with hr | ⟨r1, ⟨hr1, hlt⟩, r2, hr2, hEq⟩
      · subst hr; rfl
      · have h1 := ih a hp s i r1 hr1
        have h2 := ih (.starL a) (by simpa [groupFree] using hp) s r1.1 r2 hr2
        rw [← hEq]
        simp [h1, h2]
    | opt a =>
      simp only [groupFree] at hp
      simp only [pmatch, List.mem_append, List.mem_singleton] at hr
      rcases hr with hr | hr
      · exact ih a hp s i r hr
      · subst hr; rfl
    | grp a => simp [groupFree] at hp

/-- All capture strings a pattern can produce satisfy `P`. -/
inductive CapturesSat (P : List Char → Prop) : Pat → Prop where
  | epsPat : CapturesSat P .epsPat
  | lit (cs : List Char) : CapturesSat P (.lit cs)
  | cset (q : Char → Bool) : CapturesSat P (.cset q)
  | seq {a b : Pat} : CapturesSat P a → CapturesSat P b → CapturesSat P (.seq a b)
  | alt {a b : Pat} : CapturesSat P a → CapturesSat P b → CapturesSat P (.alt a b)
  | starG {a : Pat} : CapturesSat P a → CapturesSat P (.starG a)
  | starL {a : Pat} : CapturesSat P a → CapturesSat P (.starL a)
  | opt {a : Pat} : CapturesSat P a → CapturesSat P (.opt a)
  | grp {a : Pat} : CapturesSat P a →
      (∀ (fuel : Nat) (s : List Char) (i : Nat), ∀ r ∈ pmatch fuel a s i,
        P ((s.drop i).take (r.1 - i))) →
      CapturesSat P (.grp a)

theorem capturesSat_of_groupFree (P : List Char → Prop) :
    ∀ (p : Pat), groupFree p = true → CapturesSat P p := by
  intro p
  induction p with
  | epsPat => intro _; exact .epsPat
  | lit cs => intro _; exact .lit cs
  | cset q => intro _; exact .cset q
  | seq a b iha ihb =>
    intro hp
    simp only [groupFree, Bool.and_eq_true] at hp
    exact .seq (iha hp.1) (ihb hp.2)
  | alt a b iha ihb =>
    intro hp
    simp only [groupFree, Bool.and_eq_true] at hp
    exact .alt (iha hp.1) (ihb hp.2)
  | starG a iha => intro hp; exact .starG (iha (by simpa [groupFree] using hp))
  | starL a iha => intro hp; exact .starL (iha (by simpa [groupFree] using hp))
  | opt a iha => intro hp; exact .opt (iha (by simpa [groupFree] using hp))
  | grp a iha => intro hp; simp [groupFree] at hp

theorem pmatch_capturesSat (P : List Char → Prop) :
    ∀ (fuel : Nat) (p : Pat), CapturesSat P p →
      ∀ (s : List Char) (i : Nat), ∀ r ∈ pmatch fuel p s i, ∀ cap ∈ r.2, P cap := by
  intro fuel
  induction fuel with
  | zero => intro p _ s i r hr; simp [pmatch] at hr
  | succ fuel ih =>
    intro p hp s i r hr cap hcap
    cases hp with
    | epsPat => simp [pmatch] at hr; subst hr; simp at hcap
    | lit cs =>
      simp only [pmatch] at hr
      split at hr
      · simp at hr; subst hr; simp at hcap
      · simp at hr
    | cset q =>
      simp only [pmatch] at hr
      split at hr
      · split at hr
        · simp at hr; subst hr; simp at hcap
        · simp at hr
      · simp at hr
    | seq ha hb =>
      simp only [pmatch, List.mem_flatMap, List.mem_map] at hr
      obtain ⟨r1, hr1, r2, hr2, hEq⟩ := hr
      rw [← hEq] at hcap
      simp only [List.mem_append] at hcap
      rcases hcap with hcap | hcap
      · exact ih _ ha s i r1 hr1 cap hcap
      · exact ih _ hb s r1.1 r2 hr2 cap hcap
    | alt ha hb =>
      simp only [pmatch, List.mem_append] at hr
      rcases hr with hr | hr
      · exact ih _ ha s i r hr cap hcap
      · exact ih _ hb s i r hr cap hcap
    | starG ha =>
      simp only [pmatch, List.mem_append, List.mem_flatMap, List.mem_map,
        List.mem_filter, List.mem_singleton] at hr
      rcases hr with ⟨r1, ⟨hr1, hlt⟩, r2, hr2, hEq⟩ | hr
      · rw [← hEq] at hcap
        simp only [List.mem_append] at hcap
        rcases hcap with hcap | hcap
        · exact ih _ ha s i r1 hr1 cap hcap
        · exact ih _ (.starG ha) s r1.1 r2 hr2 cap hcap
      · subst hr; simp at hcap
    | starL ha =>
      simp only [pmatch, List.mem_cons, List.mem_flatMap, List.mem_map,
        List.mem_filter] at hr
      rcases hr with hr | ⟨r1, ⟨hr1, hlt⟩, r2, hr2, hEq⟩
      · subst hr; simp at hcap
      · rw [← hEq] at hcap
        simp only [List.mem_append] at hcap
        rcases hcap with hcap | hcap
        · exact ih _ ha s i r1 hr1 cap hcap
        · exact ih _ (.starL ha) s r1.1 r2 hr2 cap hcap
    | opt ha =>
      simp only [pmatch, List.mem_append, List.mem_singleton] at hr
      rcases hr with hr | hr
      · exact ih _ ha s i r hr cap hcap
      · subst hr; simp at hcap
    | grp ha hsem =>
      rename_i a
      simp only [pmatch, List.mem_map] at hr
      obtain ⟨r0, hr0, hEq⟩ := hr
      rw [← hEq] at hcap
      simp only [List.mem_append, List.mem_singleton] at hcap
      rcases hcap with hcap | hcap
      · exact ih _ ha s i r0 hr0 cap hcap
      · subst hcap
        exact hsem fuel s i r0 hr0

theorem pmatch_cset_shape (fuel : Nat) (q : Char → Bool) (s : List Char) (i : Nat) :
    ∀ r ∈ pmatch fuel (.cset q) s i,
      ∃ c rest, s.drop i = c :: rest ∧ q c = true ∧ r.1 = i + 1 := by
  cases fuel with
  | zero => intro r hr; simp [pmatch] at hr
  | succ fuel =>
    intro r hr
    rcases hdrop : s.drop i with _ | ⟨c, rest⟩
    · rw [pmatch, hdrop] at hr
      simp at hr
    · rw [pmatch, hdrop] at hr
      simp only [List.head?] at hr
      split at hr
      · simp at hr
        subst hr
        exact ⟨c, rest, rfl, by assumption, rfl⟩
      · simp at hr

theorem pmatch_seq_cset_head (fuel : Nat) (q : Char → Bool) (tail : Pat)
    (s : List Char) (i : Nat) :
    ∀ r ∈ pmatch fuel (.seq (.cset q) tail) s i,
      ∃ c rest, s.drop i = c :: rest ∧ q c = true ∧ i + 1 ≤ r.1 := by
  cases fuel with
  | zero => intro r hr; simp [pmatch] at hr
  | succ fuel =>
    intro r hr
    simp only [pmatch, List.mem_flatMap, List.mem_map] at hr
    obtain ⟨r1, hr1, r2, hr2, hEq⟩ := hr
    obtain ⟨c, rest, hdrop, hq, h1⟩ := pmatch_cset_shape fuel q s i r1 hr1
    have h2 := pmatch_mono fuel tail s r1.1 r2 hr2
    refine ⟨c, rest, hdrop, hq, ?_⟩
    rw [← hEq]
    simp only
    omega

theorem capture_head_of_cset (q : Char → Bool) (tail : Pat) :
    ∀ (fuel : Nat) (s : List Char) (i : Nat), ∀ r ∈ pmatch fuel (.seq (.cset q) tail) s i,
      ∃ c cs, (s.drop i).take (r.1 - i) = c :: cs ∧ q c = true := by
  intro fuel s i r hr
  obtain ⟨c, rest, hdrop, hq, hle⟩ := pmatch_seq_cset_head fuel q tail s i r hr
  obtain ⟨k, hk⟩ : ∃ k, r.1 - i = k + 1 := ⟨r.1 - i - 1, by omega⟩
  exact ⟨c, rest.take k, by rw [hdrop, hk, List.take_succ_cons], hq⟩

theorem pmatch_lit_shape (fuel : Nat) (cs : List Char) (s : List Char) (i : Nat) :
    ∀ r ∈ pmatch fuel (.lit cs) s i,
      cs.isPrefixOf (s.drop i) = true ∧ r.1 = i + cs.length := by
  cases fuel with
  | zero => intro r hr; simp [pmatch] at hr
  | succ fuel =>
    intro r hr
    rw [pmatch] at hr
    split at hr
    · simp at hr
      subst hr
      exact ⟨by assumption, rfl⟩
    · simp at hr

theorem capture_head_of_lit1 (c0 : Char) (tail : Pat) :
    ∀ (fuel : Nat) (s : List Char) (i : Nat), ∀ r ∈ pmatch fuel (.seq (.lit [c0]) tail) s i,
      ∃ cs, (s.drop i).take (r.1 - i) = c0 :: cs := by
  intro fuel
  cases fuel with
  | zero => intro s i r hr; simp [pmatch] at hr
  | succ fuel =>
    intro s i r hr
    simp only [pmatch, List.mem_flatMap, List.mem_map] at hr
    obtain ⟨r1, hr1, r2, hr2, hEq⟩ := hr
    obtain ⟨hpre, h1⟩ := pmatch_lit_shape fuel [c0] s i r1 hr1
    have h2 := pmatch_mono fuel tail s r1.1 r2 hr2
    rw [List.isPrefixOf_iff_prefix] at hpre
    obtain ⟨t, ht⟩ := hpre
    have hdrop : s.drop i = c0 :: t := by rw [← ht]; rfl
    simp only [List.length_cons, List.length_nil] at h1
    have hle : i + 1 ≤ r.1 := by
      rw [← hEq]
      simp only
      omega
    obtain ⟨k, hk⟩ : ∃ k, r.1 - i = k + 1 := ⟨r.1 - i - 1, by omega⟩
    exact ⟨t.take k, by rw [hdrop, hk, List.take_succ_cons]⟩

/-- Capture shape of `plainNameGrp`: nonempty, first char none of `@ . /`. -/
def PlainCapP (cap : List Char) : Prop :=
  ∃ c cs, cap = c :: cs ∧ c ≠ '@' ∧ c ≠ '.' ∧ c ≠ '/'

/-- Capture shape of `scopedNameGrp`: starts with `@`. -/
def ScopedCapP (cap : List Char) : Prop :=
  ∃ cs, cap = '@' :: cs

theorem capturesSat_plainNameGrp : CapturesSat PlainCapP plainNameGrp := by
  unfold plainNameGrp
  refine .grp (capturesSat_of_groupFree _ _ rfl) ?_
  intro fuel s i r hr
  obtain ⟨c, cs, hEq, hq⟩ := capture_head_of_cset _ _ fuel s i r hr
  have h3 : (¬ c = '@' ∧ ¬ c = '.') ∧ ¬ c = '/' := by simpa using hq
  exact ⟨c, cs, hEq, h3.1.1, h3.1.2, h3.2⟩

theorem capturesSat_scopedNameGrp : CapturesSat ScopedCapP scopedNameGrp := by
  unfold scopedNameGrp
  refine .grp (capturesSat_of_groupFree _ _ rfl) ?_
  intro fuel s i r hr
  exact capture_head_of_lit1 '@' _ fuel s i r hr

theorem capturesSat_importFromPat (P : List Char → Prop) (g : Pat)
    (hg : CapturesSat P g) : CapturesSat P (importFromPat g) := by
  unfold importFromPat
  exact .seq (capturesSat_of_groupFree P _ rfl)
    (.seq (capturesSat_of_groupFree P _ rfl)
      (.seq (capturesSat_of_groupFree P _ rfl)
        (.seq (capturesSat_of_groupFree P _ rfl)
          (.seq hg (capturesSat_of_groupFree P _ rfl)))))

theorem capturesSat_importCallPat (P : List Char → Prop) (g : Pat)
    (hg : CapturesSat P g) : CapturesSat P (importCallPat g) := by
  unfold importCallPat
  exact .seq (capturesSat_of_groupFree P _ rfl)
    (.seq (capturesSat_of_groupFree P _ rfl)
      (.seq (capturesSat_of_groupFree P _ rfl)
        (.seq (capturesSat_of_groupFree P _ rfl)
          (.seq (capturesSat_of_groupFree P _ rfl)
            (.seq hg (capturesSat_of_groupFree P _ rfl))))))

theorem execFromAux_mem (p : Pat) (s : List Char) :
    ∀ (scanFuel i st en : Nat) (caps : List (List Char)),
      execFromAux p s i scanFuel = some (st, en, caps) →
      ∃ r ∈ pmatch (matchFuel p s) p s st, r.1 = en ∧ r.2 = caps := by
  intro scanFuel
  induction scanFuel with
  | zero => intro i st en caps h; simp [execFromAux] at h
  | succ scanFuel ih =>
    intro i st en caps h
    rw [execFromAux] at h
    split at h
    · exact ih (i + 1) st en caps h
    next r rest heq =>
      simp only [Option.some.injEq, Prod.mk.injEq] at h
      obtain ⟨h1, h2, h3⟩ := h
      refine ⟨r, ?_, h2, h3⟩
      rw [← h1, heq]
      exact List.mem_cons_self r rest

theorem execAllFrom_mem (p : Pat) (s : List Char) :
    ∀ (fuel i : Nat) (caps : List (List Char)),
      caps ∈ execAllFrom p s i fuel →
      ∃ st r, r ∈ pmatch (matchFuel p s) p s st ∧ r.2 = caps := by
  intro fuel
  induction fuel with
  | zero => intro i caps h; simp [execAllFrom] at h
  | succ fuel ih =>
    intro i caps h
    rw [execAllFrom] at h
    split at h
    · simp at h
    next st en caps2 heq =>
      simp only [List.mem_cons] at h
      rcases h with h | h
      · obtain ⟨r, hr, h1, h2⟩ := execFromAux_mem p s _ i st en caps2 heq
        exact ⟨st, r, hr, by rw [h2, ← h]⟩
      · exact ih _ caps h

theorem execAll_caps (P : List Char → Prop) (p : Pat) (hp : CapturesSat P p)
    (s : List Char) :
    ∀ caps ∈ execAll p s, ∀ cap ∈ caps, P cap := by
  intro caps hcaps cap hcap
  obtain ⟨st, r, hr, hEq⟩ := execAllFrom_mem p s _ 0 caps hcaps
  exact pmatch_capturesSat P _ p hp s st r hr cap (hEq ▸ hcap)

/-- A dependency key that is neither a Node built-in nor a relative nor an
absolute path. -/
def KeyOk (k : List Char) : Prop :=
  k ∉ builtInModules ∧ k.headD ' ' ≠ '.' ∧ k.headD ' ' ≠ '/'

theorem recordSet_keys (env : List (List Char × List Char)) (k v : List Char) :
    ∀ kv ∈ recordSet env k v, kv.1 = k ∨ kv ∈ env := by
  unfold recordSet
  split
  · intro kv hkv
    simp only [List.mem_map] at hkv
    obtain ⟨kv0, hkv0, hEq⟩ := hkv
    by_cases h : kv0.1 = k
    · rw [if_pos h] at hEq
      left
      rw [← hEq]
    · rw [if_neg h] at hEq
      right
      rw [← hEq]
      exact hkv0
  · intro kv hkv
    simp only [List.mem_append, List.mem_singleton] at hkv
    rcases hkv with h | h
    · right; exact h
    · left; rw [h]

theorem addScannedRequire_keys (deps : List (List Char × List Char))
    (fullName : List Char) (hdeps : ∀ kv ∈ deps, KeyOk kv.1) :
    ∀ kv ∈ addScannedRequire deps fullName, KeyOk kv.1 := by
  unfold addScannedRequire
  split
  · exact hdeps
  · dsimp only
    split
    next hguard =>
      split
      · intro kv hkv
        rcases recordSet_keys deps _ _ kv hkv with h | h
        · rw [h]
          exact hguard
        · exact hdeps kv h
      · exact hdeps
    · exact hdeps

theorem splitOnChar_headD_head (sep : Char) (l : List Char) :
    ((splitOnChar sep l).headD []).headD ' ' = ' ' ∨
    ((splitOnChar sep l).headD []).headD ' ' = l.headD ' ' := by
  cases l with
  | nil => left; rfl
  | cons c cs =>
    rcases h : splitOnChar sep cs with _ | ⟨hd, tl⟩
    · exact absurd h (splitOnChar_ne_nil sep cs)
    · by_cases hc : c = sep
      · left
        simp [splitOnChar, h, hc]
      · right
        simp [splitOnChar, h, hc]

theorem addScannedImport_keys (deps : List (List Char × List Char))
    (fullName : List Char) (hdeps : ∀ kv ∈ deps, KeyOk kv.1)
    (hname : fullName.headD ' ' ≠ '.' ∧ fullName.headD ' ' ≠ '/') :
    ∀ kv ∈ addScannedImport deps fullName, KeyOk kv.1 := by
  unfold addScannedImport
  dsimp only
  split
  · exact hdeps
  next hbuiltin =>
    split
    · intro kv hkv
      rcases recordSet_keys deps _ _ kv hkv with h | h
      · rw [h]
        refine ⟨hbuiltin, ?_, ?_⟩
        · rcases splitOnChar_headD_head '/' fullName with hh | hh
          · rw [hh]; decide
          · rw [hh]; exact hname.1
        · rcases splitOnChar_headD_head '/' fullName with hh | hh
          · rw [hh]; decide
          · rw [hh]; exact hname.2
      · exact hdeps kv h
    · exact hdeps

theorem plainCaps_name_ok (caps : List (List Char))
    (hcaps : ∀ cap ∈ caps, PlainCapP cap) :
    (caps.getD 0 []).headD ' ' ≠ '.' ∧ (caps.getD 0 []).headD ' ' ≠ '/' := by
  cases caps with
  | nil => exact ⟨by decide, by decide⟩
  | cons cap rest =>
    obtain ⟨c, cs, hEq, h1, h2, h3⟩ := hcaps cap (List.mem_cons_self cap rest)
    simp [hEq, h2, h3]

theorem scopedCaps_name_ok (caps : List (List Char))
    (hcaps : ∀ cap ∈ caps, ScopedCapP cap) :
    (caps.getD 0 []).headD ' ' ≠ '.' ∧ (caps.getD 0 []).headD ' ' ≠ '/' := by
  cases caps with
  | nil => exact ⟨by decide, by decide⟩
  | cons cap rest =>
    obtain ⟨cs, hEq⟩ := hcaps cap (List.mem_cons_self cap rest)
    simp [hEq]

theorem foldl_require_keys (sel : List (List Char) → List Char) :
    ∀ (l : List (List (List Char))) (deps : List (List Char × List Char)),
      (∀ kv ∈ deps, KeyOk kv.1) →
      ∀ kv ∈ l.foldl (fun deps caps => addScannedRequire deps (sel caps)) deps,
        KeyOk kv.1 := by
  intro l
  induction l with
  | nil => intro deps hdeps; exact hdeps
  | cons caps rest ih =>
    intro deps hdeps
    exact ih _ (addScannedRequire_keys deps (sel caps) hdeps)

theorem foldl_import_keys (l : List (List (List Char)))
    (hl : ∀ caps ∈ l, (caps.getD 0 []).headD ' ' ≠ '.' ∧
      (caps.getD 0 []).headD ' ' ≠ '/') :
    ∀ (deps : List (List Char × List Char)), (∀ kv ∈ deps, KeyOk kv.1) →
      ∀ kv ∈ l.foldl (fun deps caps => addScannedImport deps (caps.getD 0 [])) deps,
        KeyOk kv.1 := by
  induction l with
  | nil => intro deps hdeps; exact hdeps
  | cons caps rest ih =>
    intro deps hdeps
    exact ih (fun c hc => hl c (List.mem_cons_of_mem caps hc)) _
      (addScannedImport_keys deps _ hdeps (hl caps (List.mem_cons_self caps rest)))

theorem extractDependencies_scan_keys (code : String)
    (h : containsSub code "@dependencies" = false) :
    ∀ kv ∈ extractDependencies code, KeyOk kv.1 := by
  unfold extractDependencies
  rw [h]
  simp only [Bool.false_eq_true, if_false, List.foldl_cons, List.foldl_nil]
  have h1 : ∀ caps ∈ execAll importPat1 code.data,
      (caps.getD 0 []).headD ' ' ≠ '.' ∧ (caps.getD 0 []).headD ' ' ≠ '/' :=
    fun caps hcaps => plainCaps_name_ok caps
      (execAll_caps PlainCapP importPat1
        (capturesSat_importFromPat _ _ capturesSat_plainNameGrp) code.data caps hcaps)
  have h2 : ∀ caps ∈ execAll importPat2 code.data,
      (caps.getD 0 []).headD ' ' ≠ '.' ∧ (caps.getD 0 []).headD ' ' ≠ '/' :=
    fun caps hcaps => plainCaps_name_ok caps
      (execAll_caps PlainCapP importPat2
        (capturesSat_importCallPat _ _ capturesSat_plainNameGrp) code.data caps hcaps)
  have h3 : ∀ caps ∈ execAll importPat3 code.data,
      (caps.getD 0 []).headD ' ' ≠ '.' ∧ (caps.getD 0 []).headD ' ' ≠ '/' :=
    fun caps hcaps => scopedCaps_name_ok caps
      (execAll_caps ScopedCapP importPat3
        (capturesSat_importFromPat _ _ capturesSat_scopedNameGrp) code.data caps hcaps)
  have h4 : ∀ caps ∈ execAll importPat4 code.data,
      (caps.getD 0 []).headD ' ' ≠ '.' ∧ (caps.getD 0 []).headD ' ' ≠ '/' :=
    fun caps hcaps => scopedCaps_name_ok caps
      (execAll_caps ScopedCapP importPat4
        (capturesSat_importCallPat _ _ capturesSat_scopedNameGrp) code.data caps hcaps)
  exact foldl_import_keys _ h4 _
    (foldl_import_keys _ h3 _
      (foldl_import_keys _ h2 _
        (foldl_import_keys _ h1 _
          (foldl_require_keys _ _ _
            (foldl_require_keys _ _ _ (by simp))))))



/-- The concrete manifest source of the spec example. -/
def manifestSource : String :=
  "/**\n * @dependencies \x7b\"left-pad\": \"1.3.0\"\x7d\n */\n"

/-- The concrete import-only source of the spec example. -/
def axiosSource : String := "import axios from \"axios\";\n"

/-- A source whose JSDoc manifest names the built-in module `fs`. -/
def fsManifestSource : String :=
  "/**\n * @dependencies\n * \"fs\": \"1.0.0\"\n */\n"

/-- C6 counterexample: the manifest branch of `extractDependencies` applies
no built-in or relative filtering, so a source whose `@dependencies`
comment lists `"fs": "1.0.0"` yields a returned map containing the
standard-library module name `fs`, contradicting "no built-in module name
ever appears" as a statement about every source text. -/
theorem extractDependencies_manifest_builtin :
    extractDependencies fsManifestSource = [("fs".data, "1.0.0".data)] ∧
    "fs".data ∈ builtInModules := by
  constructor
  · decide
  · decide

/-- C6 (amended): the explicit-manifest example returns exactly
`{"left-pad": "1.3.0"}`; the import-only example returns
`{"axios": "latest"}`; and for every source containing no `@dependencies`
manifest tag, no standard-library (built-in) module name and no
relative/path-based name appears in the returned map (an explicit manifest,
by contrast, is taken verbatim and may introduce such names). -/
theorem extractDependencies_amended :
    extractDependencies manifestSource = [("left-pad".data, "1.3.0".data)] ∧
    extractDependencies axiosSource = [("axios".data, "latest".data)] ∧
    (∀ code : String, containsSub code "@dependencies" = false →
      ∀ kv ∈ extractDependencies code,
        kv.1 ∉ builtInModules ∧ kv.1.headD ' ' ≠ '.' ∧ kv.1.headD ' ' ≠ '/') := by
  refine ⟨by decide, by decide, ?_⟩
  intro code h kv hkv
  exact extractDependencies_scan_keys code h kv hkv

/-- Witness for the amended C6: the universally quantified part applied to
the concrete axios source and its one entry. -/
theorem extractDependencies_amended_witness :
    ("axios".data : List Char) ∉ builtInModules ∧
    ("axios".data : List Char).headD ' ' ≠ '.' ∧
    ("axios".data : List Char).headD ' ' ≠ '/' :=
  extractDependencies_amended.2.2 axiosSource (by decide)
    ("axios".data, "latest".data) (by decide)

/-! ## Bootstrap entry-point selection (executor.ts wrapper, lines 108-115)

The synthesized bootstrap script picks
`importedModule.default || importedModule.handler || importedModule.main`
and then checks `typeof fnToExecute !== 'function'`.  JS `||` keeps the
first *truthy* operand, which need not be a function. -/

/-- A JavaScript runtime value, as far as truthiness and invocability go. -/
inductive JsValue where
  | undefined
  | null
  | boolean (b : Bool)
  | number (n : Int)
  | str (s : String)
  | func (tag : Nat)
  | obj (tag : Nat)
deriving Repr, DecidableEq

/-- JS truthiness: `undefined`, `null`, `false`, `0` and `""` are falsy. -/
def JsValue.truthy : JsValue → Bool
  | .undefined => false
  | .null => false
  | .boolean b => b
  | .number n => n != 0
  | .str s => s ≠ ""
  | .func _ => true
  | .obj _ => true

/-- JS `typeof v === 'function'`. -/
def JsValue.isFunction : JsValue → Bool
  | .func _ => true
  | _ => false

/-- The exports of a loaded module; an absent export reads as `undefined`.
`defaultExport` stands for the property named `default`. -/
structure JsModule where
  defaultExport : JsValue
  handler : JsValue
  main : JsValue
deriving Repr, DecidableEq

/-- JS `a || b`: `a` when truthy, otherwise `b`. -/
def jsOr (a b : JsValue) : JsValue :=
  if a.truthy then a else b

/-- The wrapper's line 111:
`importedModule.default || importedModule.handler || importedModule.main`. -/
def fnToExecute (m : JsModule) : JsValue :=
  jsOr m.defaultExport (jsOr m.handler m.main)

/-- Error message thrown by the wrapper when the picked value is not
callable (executor.ts line 114). -/
def noEntryMessage : String :=
  "No executable function found in the provided file. Export your function as default, or as \"handler\" or \"main\"."

/-- The bootstrap's entry-point step (executor.ts lines 111-115): pick the
first truthy of default/handler/main, and fail (leading to a nonzero exit)
when the picked value is not a function. -/
def bootstrapEntry (m : JsModule) : Except String JsValue :=
  let fn := fnToExecute m
  if fn.isFunction then .ok fn else .error noEntryMessage

/-- Modelled from the spec: the entry point is "the first present and
invocable" of default, `handler`, `main`. -/
def specEntrySelect (m : JsModule) : Option JsValue :=
  [m.defaultExport, m.handler, m.main].find? JsValue.isFunction

theorem truthy_of_isFunction (v : JsValue) (h : v.isFunction = true) :
    v.truthy = true := by
  cases v <;> simp_all [JsValue.isFunction, JsValue.truthy]

/-- C7 counterexample: a module whose `default` export is the (truthy,
non-callable) string `"x"` and whose `handler` export is a function.  The
spec's rule picks the handler; the code's `||` chain picks the string and
then fails, so "first present and invocable wins" is false. -/
theorem entry_truthy_shadows_function :
    specEntrySelect
        { defaultExport := .str "x", handler := .func 0, main := .undefined } =
      some (.func 0) ∧
    bootstrapEntry
        { defaultExport := .str "x", handler := .func 0, main := .undefined } =
      .error noEntryMessage := by
  constructor
  · decide
  · rfl

/-- C7 (amended): the bootstrap selects the first *truthy* of default,
`handler`, `main` and errors when that pick is not callable; a successful
pick is always a function (a non-function is never invoked); and whenever
every export is either a function or falsy, the selection agrees with the
spec's "first present and invocable wins" rule, erroring exactly when no
export is an invocable function. -/
theorem bootstrapEntry_amended (m : JsModule)
    (h : ∀ v ∈ [m.defaultExport, m.handler, m.main],
      v.isFunction = true ∨ v.truthy = false) :
    (∀ v, bootstrapEntry m = .ok v → v.isFunction = true) ∧
    bootstrapEntry m =
      (match specEntrySelect m with
       | some f => .ok f
       | none => .error noEntryMessage) := by
  constructor
  · intro v hv
    unfold bootstrapEntry at hv
    by_cases hfn : (fnToExecute m).isFunction = true
    · rw [if_pos hfn] at hv
      cases hv
      exact hfn
    · rw [if_neg hfn] at hv
      cases hv
  · have hd := h m.defaultExport (by simp)
    have hh := h m.handler (by simp)
    have hm := h m.main (by simp)
    unfold bootstrapEntry fnToExecute jsOr specEntrySelect
    by_cases h1 : m.defaultExport.truthy = true
    · have hf1 : m.defaultExport.isFunction = true := by
        rcases hd with h | h
        · exact h
        · rw [h] at h1; cases h1
      simp [h1, hf1]
    · have hf1 : m.defaultExport.isFunction = false := by
        by_contra hc
        exact h1 (truthy_of_isFunction m.defaultExport (by simpa using hc))
      by_cases h2 : m.handler.truthy = true
      · have hf2 : m.handler.isFunction = true := by
          rcases hh with h | h
          · exact h
          · rw [h] at h2; cases h2
        simp [h1, h2, hf1, hf2]
      · have hf2 : m.handler.isFunction = false := by
          by_contra hc
          exact h2 (truthy_of_isFunction m.handler (by simpa using hc))
        by_cases h3 : m.main.isFunction = true
        · simp [h1, h2, hf1, hf2, h3]
        · simp [h1, h2, hf1, hf2, h3, Bool.not_eq_true] at *

/-- Witness for the amended C7: a module exporting only `handler` as a
function is selected and invocable. -/
theorem bootstrapEntry_amended_witness :
    ((∀ v, bootstrapEntry
        { defaultExport := .undefined, handler := .func 7, main := .undefined } =
          .ok v → v.isFunction = true) ∧
      bootstrapEntry
          { defaultExport := .undefined, handler := .func 7, main := .undefined } =
        (match specEntrySelect
            { defaultExport := .undefined, handler := .func 7, main := .undefined } with
         | some f => .ok f
         | none => .error noEntryMessage)) :=
  bootstrapEntry_amended
    { defaultExport := .undefined, handler := .func 7, main := .undefined }
    (by decide)

end Serverless
